import Mathlib

/-!
# Verification of the lab-orchestrator generation pipeline

A shallow embedding of the backend core of the `lab-orchestrator`
repository: the POSIX path helpers used by the generator
(`path.normalize` / `path.join` / `path.resolve` as called from
`generator.ts`), the template renderer (`renderTemplate`), the path
sandbox (`safeJoin`), the variable binder (`getMissingRequired`,
`redactVariables`, the effective-context construction inside
`generateProject`), the project materializer (`generateProject`,
modelled as a pure function returning the ordered list of file writes it
performs plus its result), and the generation index
(`appendGeneratedRecord`).

JavaScript `Record<string, string>` objects are modelled as functions
`String → Option String`; `v ?? d` becomes `(v).getD d`; JS string
falsiness (only `""` is falsy among strings) is an equality test with
`""`.  Object-literal construction with later keys overwriting earlier
ones is modelled by searching the reversed entry list.
-/

namespace LabOrchestrator

/-! ## POSIX path model (node:path, as used by the backend) -/

/-- Split a character list at `/` separators (the segments of
`s.split("/")`). -/
def splitSegsAux : List Char → List Char → List String
  | [], acc => [String.mk acc.reverse]
  | '/' :: cs, acc => String.mk acc.reverse :: splitSegsAux cs []
  | c :: cs, acc => splitSegsAux cs (c :: acc)

/-- The `/`-separated segments of a path string. -/
def splitSegs (s : String) : List String :=
  splitSegsAux s.toList []

/-- Rejoin segments with `/` separators. -/
def joinSegs : List String → String
  | [] => ""
  | [x] => x
  | x :: xs => x ++ "/" ++ joinSegs xs

/-- JS `String.prototype.startsWith`: string-prefix test. -/
def jsStartsWith (s pre : String) : Bool :=
  pre.toList.isPrefixOf s.toList

/-- One step of POSIX path-segment normalization: drop empty and `.`
segments, let `..` pop the previous segment (or survive at the front of a
relative path, or vanish at the root of an absolute one). -/
def normStep (isAbs : Bool) (acc : List String) (seg : String) : List String :=
  if seg = "" ∨ seg = "." then acc
  else if seg = ".." then
    match acc.getLast? with
    | some last => if last = ".." then acc ++ [".."] else acc.dropLast
    | none => if isAbs then [] else [".."]
  else acc ++ [seg]

/-- `path.normalize` (POSIX): split on `/`, normalize the segments, and
reassemble, preserving absoluteness; the empty relative result is `.`. -/
def normalizePath (s : String) : String :=
  let isAbs := jsStartsWith s "/"
  let norm := (splitSegs s).foldl (normStep isAbs) []
  let body := joinSegs norm
  if isAbs then "/" ++ body else if body = "" then "." else body

/-- `path.join(a, b)` (POSIX): concatenate with a separator and
normalize. -/
def pathJoin (a b : String) : String :=
  normalizePath (a ++ "/" ++ b)

/-- `path.resolve(base, target)` for an absolute `base` (the generator
only resolves against the absolute generated-projects directory): an
absolute `target` stands alone, otherwise it is appended to `base`;
either way the result is normalized. -/
def resolvePath (base target : String) : String :=
  if jsStartsWith target "/" then normalizePath target
  else normalizePath (base ++ "/" ++ target)

/-- `safeJoin` from `generator.ts`: resolve `target` against `base` and
accept the result only when the resolved string starts with `base`.
```
const targetPath = path.resolve(base, target);
if (!targetPath.startsWith(base)) {
  throw new Error(`Invalid file path: ${target}`);
}
return targetPath;
```
-/
def safeJoin (base target : String) : Except String String :=
  let targetPath := resolvePath base target
  if jsStartsWith targetPath base then Except.ok targetPath
  else Except.error ("Invalid file path: " ++ target)

/-! ## Template renderer (`renderTemplate` in `generator.ts`) -/

/-- The character class `\s` of the template regex (ASCII part). -/
def isWsp (c : Char) : Bool :=
  c == ' ' || c == '\t' || c == '\n' || c == '\r' || c == '\x0b' || c == '\x0c'

/-- The character class `[A-Za-z0-9_]` of the template regex. -/
def isWordChar (c : Char) : Bool :=
  c.isAlphanum || c == '_'

/-- Match the closing `}}` of the pattern: succeed exactly when the list
starts with two `}` characters, returning what follows. -/
def matchKeyClose : List Char → Option (List Char)
  | c1 :: c2 :: rest2 => if c1 = '}' ∧ c2 = '}' then some rest2 else none
  | _ => none

/-- Match `\s*([A-Za-z0-9_]+)\s*}}` (the pattern after the opening
braces): skip whitespace, take the greedy non-empty word-character key,
skip whitespace, and require the closing braces. -/
def matchBody (r : List Char) : Option (String × List Char) :=
  let afterWs := r.dropWhile isWsp
  let keyChars := afterWs.takeWhile isWordChar
  let afterKey := afterWs.dropWhile isWordChar
  if keyChars.isEmpty then none
  else
    match matchKeyClose (afterKey.dropWhile isWsp) with
    | some rest2 => some (String.mk keyChars, rest2)
    | none => none

/-- Try to match the regex `{{\s*([A-Za-z0-9_]+)\s*}}` at the head of the
character list; on success return the captured key and the characters
after the match.  The regex is deterministic here: word characters,
whitespace and `}` are pairwise disjoint, so greedy matching never needs
to backtrack. -/
def matchToken : List Char → Option (String × List Char)
  | c1 :: c2 :: rest => if c1 = '{' ∧ c2 = '{' then matchBody rest else none
  | _ => none

/-- The scan of `template.replace(templatePattern, (_, key) =>
context[key] ?? "")`: at each position, if the pattern matches, emit the
binding (or `""` for an unbound key) and continue after the match,
otherwise emit the character and move one position right.  `fuel` bounds
the recursion; `renderTemplate` supplies enough for the whole string. -/
def renderAux (context : String → Option String) : Nat → List Char → List Char
  | 0, l => l
  | _ + 1, [] => []
  | n + 1, c :: cs =>
    match matchToken (c :: cs) with
    | some (key, rest) => ((context key).getD "").toList ++ renderAux context n rest
    | none => c :: renderAux context n cs

/-- `renderTemplate(template, context)` from `generator.ts`. -/
def renderTemplate (template : String) (context : String → Option String) : String :=
  String.mk (renderAux context template.toList.length template.toList)

/-- Whether some suffix of the character list matches the template
pattern, i.e. whether the string contains a `{{KEY}}` token. -/
def hasToken : List Char → Bool
  | [] => false
  | c :: cs => (matchToken (c :: cs)).isSome || hasToken cs

/-- Whether a string contains an occurrence of the template pattern. -/
def containsToken (s : String) : Bool :=
  hasToken s.toList

/-- Whether a character list contains two adjacent `{` characters (the
only way a template-pattern match can begin). -/
def hasDoubleBrace : List Char → Bool
  | c1 :: c2 :: rest => (c1 = '{' && c2 = '{') || hasDoubleBrace (c2 :: rest)
  | _ => false

/-- A well-formed substitution key: non-empty and all word characters
(`[A-Za-z0-9_]+`). -/
def validTokenKey (s : String) : Bool :=
  !s.toList.isEmpty && s.toList.all isWordChar

/-! ## Schema (`schema.ts`) -/

/-- `z.enum(["easy", "medium", "hard"])`. -/
inductive Difficulty
  | easy
  | medium
  | hard
deriving DecidableEq, Repr

/-- `RecipeVariableSchema`: key, label, default, required, and the
optional options / secret / description fields. -/
structure RecipeVariable where
  key : String
  label : String
  default : String
  required : Bool
  options : Option (List String) := none
  secret : Option Bool := none
  description : Option String := none
deriving DecidableEq, Repr

/-- `RecipeFileSchema`: a templated relative path and templated
content. -/
structure RecipeFile where
  path : String
  content : String
deriving DecidableEq, Repr

/-- `RecipeSchema`: the validated recipe document shape. -/
structure Recipe where
  id : String
  name : String
  description : String
  tags : List String
  difficulty : Difficulty
  vars : List RecipeVariable
  composeTemplate : String
  envTemplate : String
  readmeTemplate : String
  seedFiles : Option (List RecipeFile) := none
  extraFiles : Option (List RecipeFile) := none
deriving DecidableEq, Repr

/-- `'A' ≤ c ≤ 'Z'`, the class `[A-Z]`. -/
def isUpperAZ (c : Char) : Bool :=
  'A' ≤ c && c ≤ 'Z'

/-- The class `[A-Z0-9_]` of the variable-key regex. -/
def isKeyChar (c : Char) : Bool :=
  isUpperAZ c || c.isDigit || c == '_'

/-- The variable-key regex `^[A-Z][A-Z0-9_]*$` of
`RecipeVariableSchema`. -/
def validVarKey (s : String) : Bool :=
  match s.toList with
  | [] => false
  | c :: cs => isUpperAZ c && cs.all isKeyChar

/-! ## Variable binder (`generator.ts`) -/

/-- The per-variable effective value `variables[variable.key] ??
variable.default`: the override when present (`??` falls back only on
absence, not on emptiness), else the declared default. -/
def effValue (vars : String → Option String) (v : RecipeVariable) : String :=
  (vars v.key).getD v.default

/-- The render context built at the top of `generateProject`:
```
const context = {
  projectName,
  ...Object.fromEntries(recipe.variables.map((variable) =>
    [variable.key, variables[variable.key] ?? variable.default]))
};
```
Later object keys overwrite earlier ones, hence the search over the
reversed variable list. -/
def buildContext (recipe : Recipe) (projectName : String)
    (vars : String → Option String) : String → Option String :=
  fun k =>
    match recipe.vars.reverse.find? (fun v => v.key == k) with
    | some v => some (effValue vars v)
    | none => if k == "projectName" then some projectName else none

/-- `getMissingRequired(recipe, variables)`: keys of the required
variables whose effective value `variables[key] ?? default` is falsy
(the empty string), in declaration order. -/
def getMissingRequired (recipe : Recipe) (vars : String → Option String) : List String :=
  (recipe.vars.filter (fun v => v.required && effValue vars v == "")).map (·.key)

/-- `redactVariables(recipe, variables)`: one entry per declared
variable; secret-flagged variables map to the fixed marker `"***"`,
others to their effective value.  Later duplicate keys overwrite
earlier ones, as in the JS object-assignment loop. -/
def redactVariables (recipe : Recipe) (vars : String → Option String) : String → Option String :=
  fun k =>
    match recipe.vars.reverse.find? (fun v => v.key == k) with
    | some v => some (if v.secret.getD false then "***" else effValue vars v)
    | none => none

/-! ## Project materializer (`generateProject` in `generator.ts`)

The filesystem effect is modelled as the ordered list of
`(absolute path, content)` file writes the call performs; directory
creation is not observable in this model.  A sandbox failure carries the
writes already performed plus the error. -/

/-- The result value of `generateProject`. -/
structure GenerateResult where
  projectDir : String
  compose : String
  env : String
  readme : String
deriving DecidableEq, Repr

/-- One seed-file write request: the sandbox target
`path.join("seed", renderedPath)` and the rendered content. -/
def seedSpec (context : String → Option String) (f : RecipeFile) : String × String :=
  (pathJoin "seed" (renderTemplate f.path context), renderTemplate f.content context)

/-- One extra-file write request: the rendered path (sandbox target) and
the rendered content. -/
def extraSpec (context : String → Option String) (f : RecipeFile) : String × String :=
  (renderTemplate f.path context, renderTemplate f.content context)

/-- The ordered sequence of seed-then-extra write requests of one
generation call. -/
def genFileSpecs (recipe : Recipe) (context : String → Option String) : List (String × String) :=
  (recipe.seedFiles.getD []).map (seedSpec context)
    ++ (recipe.extraFiles.getD []).map (extraSpec context)

/-- Run the write requests in order, passing each target through
`safeJoin`; stop at the first sandbox failure, returning the writes
performed so far and the error. -/
def processFiles (projectDir : String) : List (String × String) → List (String × String) × Option String
  | [] => ([], none)
  | (target, content) :: rest =>
    match safeJoin projectDir target with
    | Except.error e => ([], some e)
    | Except.ok p =>
      let r := processFiles projectDir rest
      ((p, content) :: r.1, r.2)

/-- `generateProject(recipe, projectName, variables)`: build the
context, render and write the three fixed files under
`<generatedDir>/<projectName>`, then write the seed and extra files in
order through the sandbox.  Returns the ordered writes performed and
either the first sandbox error or the `GenerateResult`. -/
def generateProject (generatedDir : String) (recipe : Recipe) (projectName : String)
    (vars : String → Option String) :
    List (String × String) × Except String GenerateResult :=
  let context := buildContext recipe projectName vars
  let projectDir := pathJoin generatedDir projectName
  let compose := renderTemplate recipe.composeTemplate context
  let env := renderTemplate recipe.envTemplate context
  let readme := renderTemplate recipe.readmeTemplate context
  let baseWrites := [(pathJoin projectDir "docker-compose.yml", compose),
    (pathJoin projectDir ".env", env),
    (pathJoin projectDir "README.md", readme)]
  let r := processFiles projectDir (genFileSpecs recipe context)
  (baseWrites ++ r.1,
    match r.2 with
    | some e => Except.error e
    | none => Except.ok ⟨projectDir, compose, env, readme⟩)

/-! ## Generation index (`generated.ts`) -/

/-- `GeneratedRecord`: the receipt persisted for one materialization;
its `variables` field holds the redacted bindings. -/
structure GeneratedRecord where
  projectName : String
  recipeId : String
  createdAt : String
  path : String
  vars : List (String × String)
deriving DecidableEq, Repr

/-- `appendGeneratedRecord`: `[record, ...existing].slice(0, 100)` —
prepend the new record and keep at most the first 100 entries. -/
def appendGeneratedRecord (record : GeneratedRecord) (existing : List GeneratedRecord) :
    List GeneratedRecord :=
  (record :: existing).take 100

/-! ## Concrete fixtures used by counterexamples and witnesses -/

/-- A minimal recipe with one optional variable `TAG` defaulting to
`"latest"`, as in the spec's end-to-end example. -/
def tagRecipe : Recipe :=
  { id := "demo", name := "Demo", description := "A demo", tags := [],
    difficulty := Difficulty.easy,
    vars := [{ key := "TAG", label := "Tag", default := "latest", required := false }],
    composeTemplate := "image: {{TAG}}", envTemplate := "E={{TAG}}",
    readmeTemplate := "R" }

/-- A recipe with one variable `K` whose default is the non-empty string
`"d"`. -/
def defaultKRecipe : Recipe :=
  { tagRecipe with
    vars := [{ key := "K", label := "K", default := "d", required := true }] }

/-- A recipe with one required variable `DB_PASS` whose default is the
empty string. -/
def dbPassRecipe : Recipe :=
  { tagRecipe with
    vars := [{ key := "DB_PASS", label := "Password", default := "", required := true }] }

/-- A recipe with a secret variable `S` and a plain variable `N`. -/
def secretRecipe : Recipe :=
  { tagRecipe with
    vars := [{ key := "S", label := "Secret", default := "s3cr3t", required := false,
               secret := some true },
             { key := "N", label := "Plain", default := "n", required := false }] }

/-- A recipe whose second extra file escapes the sandbox. -/
def escapeRecipe : Recipe :=
  { tagRecipe with
    extraFiles := some [⟨"a.txt", "A"⟩, ⟨"../../x", "X"⟩, ⟨"b.txt", "B"⟩] }

/-- An override map supplying only the empty string for `K`. -/
def emptyKOverride : String → Option String :=
  fun k => if k = "K" then some "" else none

/-- An override map supplying `"x"` for `DB_PASS`. -/
def dbPassOverride : String → Option String :=
  fun k => if k = "DB_PASS" then some "x" else none

/-- A context binding `A` to the token-shaped value `{{B}}`. -/
def tokenValueCtx : String → Option String :=
  fun k => if k = "A" then some "{{B}}" else none

/-! ## Helper lemmas -/

/-- In a list of variables with pairwise-distinct keys, searching for a
member's key finds exactly that member. -/
theorem find?_key_of_nodup {l : List RecipeVariable} {v : RecipeVariable}
    (hnd : (l.map (·.key)).Nodup) (hv : v ∈ l) :
    l.find? (fun w => w.key == v.key) = some v := by
  induction l with
  | nil => cases hv
  | cons w ws ih =>
    rw [List.map_cons, List.nodup_cons] at hnd
    rcases List.mem_cons.mp hv with hvw | hvs
    · subst hvw
      exact List.find?_cons_of_pos _ (by simp)
    · have hkey : w.key ≠ v.key := by
        intro hk
        exact hnd.1 (hk ▸ List.mem_map.mpr ⟨v, hvs, rfl⟩)
      rw [List.find?_cons_of_neg _ (by simpa using hkey)]
      exact ih hnd.2 hvs

/-- `buildContext` looks a declared variable up to its effective value
(last declaration wins; with unique keys, the declaration itself). -/
theorem buildContext_decl {recipe : Recipe} {v : RecipeVariable}
    (hnd : (recipe.vars.map (·.key)).Nodup) (hv : v ∈ recipe.vars)
    (projectName : String) (o : String → Option String) :
    buildContext recipe projectName o v.key = some (effValue o v) := by
  have hnd' : (recipe.vars.reverse.map (·.key)).Nodup := by
    rw [List.map_reverse]
    exact List.nodup_reverse.mpr hnd
  have hv' : v ∈ recipe.vars.reverse := List.mem_reverse.mpr hv
  unfold buildContext
  rw [find?_key_of_nodup hnd' hv']

/-- `redactVariables` looks a declared variable up the same way. -/
theorem redact_decl {recipe : Recipe} {v : RecipeVariable}
    (hnd : (recipe.vars.map (·.key)).Nodup) (hv : v ∈ recipe.vars)
    (o : String → Option String) :
    redactVariables recipe o v.key
      = some (if v.secret.getD false then "***" else effValue o v) := by
  have hnd' : (recipe.vars.reverse.map (·.key)).Nodup := by
    rw [List.map_reverse]
    exact List.nodup_reverse.mpr hnd
  have hv' : v ∈ recipe.vars.reverse := List.mem_reverse.mpr hv
  unfold redactVariables
  rw [find?_key_of_nodup hnd' hv']

/-! ## Claim C1 — the path sandbox -/

/-- C1 counterexample: from base `/root/gen/proj`, the relative target
`../proj-evil/x` resolves to `/root/gen/proj-evil/x`, a path in a
*sibling* directory whose name merely shares the base as a string
prefix; `safeJoin` accepts it even though it is not lexically contained
in the base directory (it neither equals the base nor extends it past a
separator). -/
theorem c1_counterexample :
    safeJoin "/root/gen/proj" "../proj-evil/x" = Except.ok "/root/gen/proj-evil/x" ∧
    "/root/gen/proj-evil/x" ≠ "/root/gen/proj" ∧
    jsStartsWith "/root/gen/proj-evil/x" "/root/gen/proj/" = false :=
  ⟨rfl, by decide, by decide⟩

/-- C1 (amended): `safeJoin` either throws or returns the resolved
path, and every accepted path has the base as a *string* prefix; `..`
escapes and absolute-path injections that leave this prefix are
rejected (`../../etc/passwd` from `/root/gen/proj` fails, `seed/a.sql`
resolves inside the base), but the containment is only string-prefix
containment, so sibling directories whose names extend the base's last
segment are accepted. -/
theorem c1_sandbox_lexical_containment :
    (∀ base target p, safeJoin base target = Except.ok p →
        p = resolvePath base target ∧ jsStartsWith p base = true) ∧
    safeJoin "/root/gen/proj" "../../etc/passwd"
      = Except.error "Invalid file path: ../../etc/passwd" ∧
    safeJoin "/root/gen/proj" "seed/a.sql" = Except.ok "/root/gen/proj/seed/a.sql" := by
  refine ⟨?_, rfl, rfl⟩
  intro base target p h
  unfold safeJoin at h
  by_cases hc : jsStartsWith (resolvePath base target) base
  · rw [if_pos hc] at h
    exact ⟨(Except.ok.injEq _ _).mp h |>.symm, (Except.ok.injEq _ _).mp h ▸ hc⟩
  · rw [if_neg hc] at h
    cases h

/-- C1 witness: the amended theorem applied to the accepted example
`seed/a.sql` under `/root/gen/proj`. -/
theorem c1_witness :
    "/root/gen/proj/seed/a.sql" = resolvePath "/root/gen/proj" "seed/a.sql" ∧
    jsStartsWith "/root/gen/proj/seed/a.sql" "/root/gen/proj" = true :=
  c1_sandbox_lexical_containment.1 "/root/gen/proj" "seed/a.sql"
    "/root/gen/proj/seed/a.sql" rfl

/-! ## Claim C2 — the effective render context -/

/-- C2 counterexample: for a declared variable `K` with default `"d"`
and the present-but-empty override `{K: ""}`, the context built by
`generateProject` binds `K` to `""`, not to the default: JS `??` falls
back only on a missing key, so a present-but-empty override *does*
suppress the default. -/
theorem c2_counterexample :
    buildContext defaultKRecipe "p" emptyKOverride "K" = some "" ∧
    ("" : String) ≠ "d" :=
  ⟨rfl, by decide⟩

/-- C2 (amended): the effective render context binds each declared
variable key to the override value whenever an override entry is
present — even if it is the empty string — and to the declared default
only when no override entry exists for the key. -/
theorem c2_effective_context (recipe : Recipe) (projectName : String)
    (o : String → Option String) (v : RecipeVariable)
    (hnd : (recipe.vars.map (·.key)).Nodup) (hv : v ∈ recipe.vars) :
    buildContext recipe projectName o v.key = some ((o v.key).getD v.default) :=
  buildContext_decl hnd hv projectName o

/-- C2 witness: the amended theorem applied to `defaultKRecipe` with no
override (default used) — evaluating to the declared default. -/
theorem c2_witness :
    buildContext defaultKRecipe "p" (fun _ => none) "K" = some "d" :=
  c2_effective_context defaultKRecipe "p" (fun _ => none)
    { key := "K", label := "K", default := "d", required := true }
    (by decide) (by decide)

/-! ## Claim C5 — no recursive expansion -/

/-- C5: a substituted value is never re-scanned: rendering `{{A}}` in a
context binding `A` to the literal `{{B}}` yields the literal `{{B}}`,
whatever `B` is bound to (here: any `bval`). -/
theorem c5_no_recursive_expansion (bval : String) :
    renderTemplate "{{A}}"
      (fun k => if k = "A" then some "{{B}}" else if k = "B" then some bval else none)
      = "{{B}}" :=
  rfl

/-! ## Claim C7 — the generation index -/

/-- C7: `appendGeneratedRecord` puts the new record at the head, keeps
the previous records (truncated to the first 99) as the unmodified rest
of the list, and the result never exceeds 100 entries; what is kept of
the old index is a prefix of it. -/
theorem c7_append_newest_first (record : GeneratedRecord) (existing : List GeneratedRecord) :
    appendGeneratedRecord record existing = record :: existing.take 99 ∧
    (appendGeneratedRecord record existing).length ≤ 100 ∧
    ∃ rest, existing = existing.take 99 ++ rest := by
  refine ⟨List.take_succ_cons, ?_, existing.drop 99, (List.take_append_drop 99 existing).symm⟩
  exact (record :: existing).length_take_le 100

/-! ## Claim C3 — missing required variables -/

/-- C3: membership in `getMissingRequired` is exactly: the variable is
declared, required, its key is the element, no present override
resolves to a non-empty string, and no default resolves (i.e. is
consulted in the absence of an override) to a non-empty string; the
result is in declaration order (a sublist of the declared key list);
and the two concrete examples of the spec hold. -/
theorem c3_missing_required :
    (∀ (recipe : Recipe) (o : String → Option String) (k : String),
        k ∈ getMissingRequired recipe o ↔
          ∃ v, v ∈ recipe.vars ∧ v.key = k ∧ v.required = true ∧
            ¬(∃ s, o v.key = some s ∧ s ≠ "") ∧
            ¬(o v.key = none ∧ v.default ≠ "")) ∧
    (∀ (recipe : Recipe) (o : String → Option String),
        List.Sublist (getMissingRequired recipe o) (recipe.vars.map (·.key))) ∧
    getMissingRequired dbPassRecipe dbPassOverride = [] ∧
    getMissingRequired dbPassRecipe (fun _ => none) = ["DB_PASS"] := by
  refine ⟨?_, ?_, rfl, rfl⟩
  · intro recipe o k
    simp only [getMissingRequired, List.mem_map, List.mem_filter, Bool.and_eq_true,
      beq_iff_eq, effValue]
    constructor
    · rintro ⟨v, ⟨hv, hreq, hval⟩, hk⟩
      refine ⟨v, hv, hk, hreq, ?_, ?_⟩
      · rintro ⟨s, hs, hne⟩
        rw [hs] at hval
        exact hne hval
      · rintro ⟨hn, hd⟩
        rw [hn] at hval
        exact hd hval
    · rintro ⟨v, hv, hk, hreq, h1, h2⟩
      refine ⟨v, ⟨hv, hreq, ?_⟩, hk⟩
      cases h : o v.key with
      | none =>
        simp only [h, Option.getD_none]
        by_contra hd
        exact h2 ⟨h, hd⟩
      | some s =>
        simp only [h, Option.getD_some]
        by_contra hne
        exact h1 ⟨s, h, hne⟩
  · intro recipe o
    exact (List.filter_sublist recipe.vars).map (·.key)

/-! ## Claim C6 — secret redaction -/

/-- C6: `redactVariables` is unchanged under any change of the
overrides of secret-flagged variables (its output never depends on a
secret's value), binds every secret-flagged declared key to the fixed
marker `"***"`, and binds every non-secret declared key to its
effective value. -/
theorem c6_redact_secrets (recipe : Recipe) (o o2 : String → Option String)
    (hnd : (recipe.vars.map (·.key)).Nodup)
    (hagree : ∀ v ∈ recipe.vars, v.secret.getD false = false → o v.key = o2 v.key) :
    redactVariables recipe o = redactVariables recipe o2 ∧
    (∀ v ∈ recipe.vars, v.secret.getD false = true →
        redactVariables recipe o v.key = some "***") ∧
    (∀ v ∈ recipe.vars, v.secret.getD false = false →
        redactVariables recipe o v.key = some ((o v.key).getD v.default)) := by
  refine ⟨?_, ?_, ?_⟩
  · funext k
    unfold redactVariables
    cases hf : recipe.vars.reverse.find? (fun w => w.key == k) with
    | none => rfl
    | some v =>
      have hv : v ∈ recipe.vars := List.mem_reverse.mp (List.mem_of_find?_eq_some hf)
      cases hs : v.secret.getD false with
      | true => simp [hs]
      | false => simp [hs, effValue, hagree v hv hs]
  · intro v hv hs
    rw [redact_decl hnd hv o, hs]
    simp
  · intro v hv hs
    rw [redact_decl hnd hv o, hs]
    simp [effValue]

/-- C6 witness: on `secretRecipe`, two override maps that differ only in
the secret `S` produce identical redactions, and `S` is bound to the
marker. -/
theorem c6_witness :
    redactVariables secretRecipe (fun k => if k = "S" then some "alpha" else none)
      = redactVariables secretRecipe (fun k => if k = "S" then some "beta" else none) ∧
    redactVariables secretRecipe (fun k => if k = "S" then some "alpha" else none) "S"
      = some "***" :=
  ⟨(c6_redact_secrets secretRecipe
      (fun k => if k = "S" then some "alpha" else none)
      (fun k => if k = "S" then some "beta" else none) (by decide) (by decide)).1,
   (c6_redact_secrets secretRecipe
      (fun k => if k = "S" then some "alpha" else none)
      (fun k => if k = "S" then some "beta" else none) (by decide) (by decide)).2.1
     { key := "S", label := "Secret", default := "s3cr3t", required := false,
       secret := some true }
     (by decide) rfl⟩

/-! ## Claim C10 — exact context keys -/

/-- A valid variable key starts with an uppercase letter, so it can
never be the lowercase-initial string `projectName`. -/
theorem validVarKey_ne_projectName (k : String) (h : validVarKey k = true) :
    k ≠ "projectName" := by
  intro hk
  subst hk
  exact absurd h (by decide)

/-- C10: the render context is defined exactly on `projectName` plus
the declared variable keys; overrides agreeing on the declared keys
give identical `generateProject` outcomes (undeclared override keys
have no effect); a schema-valid variable key is never `projectName`,
so for schema-valid recipes the `projectName` binding is never
shadowed. -/
theorem c10_context_exact_keys :
    (∀ (recipe : Recipe) (name : String) (o : String → Option String) (k : String),
        (buildContext recipe name o k).isSome = true ↔
          (k = "projectName" ∨ k ∈ recipe.vars.map (·.key))) ∧
    (∀ (gd : String) (recipe : Recipe) (name : String) (o o2 : String → Option String),
        (∀ v ∈ recipe.vars, o v.key = o2 v.key) →
          generateProject gd recipe name o = generateProject gd recipe name o2) ∧
    (∀ k : String, validVarKey k = true → k ≠ "projectName") ∧
    (∀ (recipe : Recipe) (name : String) (o : String → Option String),
        (∀ v ∈ recipe.vars, validVarKey v.key = true) →
          buildContext recipe name o "projectName" = some name) := by
  refine ⟨?_, ?_, validVarKey_ne_projectName, ?_⟩
  · intro recipe name o k
    unfold buildContext
    cases hf : recipe.vars.reverse.find? (fun w => w.key == k) with
    | some v =>
      have hv : v ∈ recipe.vars := List.mem_reverse.mp (List.mem_of_find?_eq_some hf)
      have hkey : v.key = k := by
        have := List.find?_some hf
        simpa using this
      simp only [Option.isSome_some, true_iff]
      exact Or.inr (List.mem_map.mpr ⟨v, hv, hkey⟩)
    | none =>
      by_cases hk : k = "projectName"
      · simp [hk]
      · rw [if_neg (show ¬((k == "projectName") = true) by simpa using hk)]
        simp only [Option.isSome_none, Bool.false_eq_true, false_iff]
        rintro (h | h)
        · exact hk h
        · rcases List.mem_map.mp h with ⟨v, hv, hkey⟩
          have := List.find?_eq_none.mp hf v (List.mem_reverse.mpr hv)
          simp [hkey] at this
  · intro gd recipe name o o2 hagree
    have hctx : buildContext recipe name o = buildContext recipe name o2 := by
      funext k
      unfold buildContext
      cases hf : recipe.vars.reverse.find? (fun w => w.key == k) with
      | none => rfl
      | some v =>
        have hv : v ∈ recipe.vars := List.mem_reverse.mp (List.mem_of_find?_eq_some hf)
        simp [effValue, hagree v hv]
    unfold generateProject
    rw [hctx]
  · intro recipe name o hall
    unfold buildContext
    have hf : recipe.vars.reverse.find? (fun w => w.key == "projectName") = none := by
      refine List.find?_eq_none.mpr fun v hv => ?_
      have := validVarKey_ne_projectName v.key (hall v (List.mem_reverse.mp hv))
      simpa using this
    rw [hf]
    simp

/-- C10 witness: the theorem applied to `tagRecipe`: the `projectName`
binding survives, and an override for the undeclared key `ZZZ` changes
nothing about the generation outcome. -/
theorem c10_witness :
    buildContext tagRecipe "demo" (fun _ => none) "projectName" = some "demo" ∧
    generateProject "/g" tagRecipe "demo" (fun k => if k = "ZZZ" then some "ignored" else none)
      = generateProject "/g" tagRecipe "demo" (fun _ => none) :=
  ⟨c10_context_exact_keys.2.2.2 tagRecipe "demo" (fun _ => none) (by decide),
   c10_context_exact_keys.2.1 "/g" tagRecipe "demo" _ _ (by decide)⟩

/-! ## Claim C8 — the three fixed writes and the returned strings -/

/-- C8: every generation call's write sequence starts with the rendered
compose, env and readme templates at `<projectDir>/docker-compose.yml`,
`<projectDir>/.env` and `<projectDir>/README.md`; a successful call
returns exactly those rendered strings and the project directory; and
the spec's end-to-end example (`"image: {{TAG}}"`, `TAG` defaulting to
`"latest"`, no override) writes and returns exactly `"image: latest"`. -/
theorem c8_generate_writes :
    (∀ (gd : String) (recipe : Recipe) (name : String) (o : String → Option String),
        ∃ rest, (generateProject gd recipe name o).1 =
          (pathJoin (pathJoin gd name) "docker-compose.yml",
            renderTemplate recipe.composeTemplate (buildContext recipe name o)) ::
          (pathJoin (pathJoin gd name) ".env",
            renderTemplate recipe.envTemplate (buildContext recipe name o)) ::
          (pathJoin (pathJoin gd name) "README.md",
            renderTemplate recipe.readmeTemplate (buildContext recipe name o)) :: rest) ∧
    (∀ (gd : String) (recipe : Recipe) (name : String) (o : String → Option String)
        (res : GenerateResult),
        (generateProject gd recipe name o).2 = Except.ok res →
          res.projectDir = pathJoin gd name ∧
          res.compose = renderTemplate recipe.composeTemplate (buildContext recipe name o) ∧
          res.env = renderTemplate recipe.envTemplate (buildContext recipe name o) ∧
          res.readme = renderTemplate recipe.readmeTemplate (buildContext recipe name o)) ∧
    (generateProject "/root/generated" tagRecipe "demo" (fun _ => none)).1 =
      [("/root/generated/demo/docker-compose.yml", "image: latest"),
       ("/root/generated/demo/.env", "E=latest"),
       ("/root/generated/demo/README.md", "R")] ∧
    (generateProject "/root/generated" tagRecipe "demo" (fun _ => none)).2 =
      Except.ok { projectDir := "/root/generated/demo", compose := "image: latest",
                  env := "E=latest", readme := "R" } := by
  refine ⟨?_, ?_, rfl, rfl⟩
  · intro gd recipe name o
    exact ⟨(processFiles (pathJoin gd name)
      (genFileSpecs recipe (buildContext recipe name o))).1, rfl⟩
  · intro gd recipe name o res h
    simp only [generateProject] at h
    cases hp : (processFiles (pathJoin gd name)
        (genFileSpecs recipe (buildContext recipe name o))).2 with
    | some e =>
      rw [hp] at h
      cases h
    | none =>
      rw [hp] at h
      cases h
      exact ⟨rfl, rfl, rfl, rfl⟩

/-- C8 witness: the success clause of the theorem at the spec's
end-to-end example. -/
theorem c8_witness :
    ("/root/generated/demo" : String) = pathJoin "/root/generated" "demo" ∧
    ("image: latest" : String)
      = renderTemplate tagRecipe.composeTemplate (buildContext tagRecipe "demo" (fun _ => none)) ∧
    ("E=latest" : String)
      = renderTemplate tagRecipe.envTemplate (buildContext tagRecipe "demo" (fun _ => none)) ∧
    ("R" : String)
      = renderTemplate tagRecipe.readmeTemplate (buildContext tagRecipe "demo" (fun _ => none)) :=
  c8_generate_writes.2.1 "/root/generated" tagRecipe "demo" (fun _ => none)
    { projectDir := "/root/generated/demo", compose := "image: latest",
      env := "E=latest", readme := "R" } rfl

/-! ## Claim C9 — ordered writes, deterministic abort -/

/-- `processFiles` on a sequence whose first `i` targets pass the
sandbox and whose `i`-th target fails performs exactly the first `i`
writes and stops with that error. -/
theorem processFiles_abort (pd : String) (specs : List (String × String)) (i : Nat)
    (hi : i < specs.length) (e : String)
    (hok : ∀ j (hj : j < i),
        ∃ p, safeJoin pd (specs.get ⟨j, Nat.lt_trans hj hi⟩).1 = Except.ok p)
    (herr : safeJoin pd (specs.get ⟨i, hi⟩).1 = Except.error e) :
    processFiles pd specs =
      ((specs.take i).map (fun s => ((safeJoin pd s.1).toOption.getD "", s.2)), some e) := by
  induction specs generalizing i with
  | nil => exact absurd hi (Nat.not_lt_zero i)
  | cons hd tl ih =>
    obtain ⟨t, c⟩ := hd
    cases i with
    | zero =>
      simp only [List.get] at herr
      simp [processFiles, herr]
    | succ j =>
      obtain ⟨p, hp⟩ := hok 0 (Nat.succ_pos j)
      simp only [List.get] at hp
      have htl := ih j (Nat.lt_of_succ_lt_succ hi)
        (fun j' hj' => hok (j' + 1) (Nat.succ_lt_succ hj'))
        herr
      simp [processFiles, hp, htl, Except.toOption]

/-- C9: within one generation call the seed/extra files form one
ordered sequence; if the sandbox check fails at index `i` of that
sequence, the call's writes are exactly the three fixed files plus the
first `i` sequence writes — everything before the failing index is
written, nothing at or after it is — and the call returns that error. -/
theorem c9_sequential_abort (gd : String) (recipe : Recipe) (name : String)
    (o : String → Option String) (i : Nat) (e : String)
    (hi : i < (genFileSpecs recipe (buildContext recipe name o)).length)
    (hok : ∀ j (hj : j < i),
        ∃ p, safeJoin (pathJoin gd name)
          ((genFileSpecs recipe (buildContext recipe name o)).get ⟨j, Nat.lt_trans hj hi⟩).1
          = Except.ok p)
    (herr : safeJoin (pathJoin gd name)
        ((genFileSpecs recipe (buildContext recipe name o)).get ⟨i, hi⟩).1
        = Except.error e) :
    generateProject gd recipe name o =
      ([(pathJoin (pathJoin gd name) "docker-compose.yml",
          renderTemplate recipe.composeTemplate (buildContext recipe name o)),
        (pathJoin (pathJoin gd name) ".env",
          renderTemplate recipe.envTemplate (buildContext recipe name o)),
        (pathJoin (pathJoin gd name) "README.md",
          renderTemplate recipe.readmeTemplate (buildContext recipe name o))]
        ++ ((genFileSpecs recipe (buildContext recipe name o)).take i).map
            (fun s => ((safeJoin (pathJoin gd name) s.1).toOption.getD "", s.2)),
       Except.error e) := by
  have hpf := processFiles_abort (pathJoin gd name)
    (genFileSpecs recipe (buildContext recipe name o)) i hi e hok herr
  simp only [generateProject, hpf]

/-- C9 witness: on `escapeRecipe` (extra files `a.txt`, `../../x`,
`b.txt`) the call writes the three fixed files and `a.txt`, then aborts
at index 1 with the sandbox error; `b.txt` is never written. -/
theorem c9_witness :
    generateProject "/root/generated" escapeRecipe "demo" (fun _ => none) =
      ([("/root/generated/demo/docker-compose.yml", "image: latest"),
        ("/root/generated/demo/.env", "E=latest"),
        ("/root/generated/demo/README.md", "R"),
        ("/root/generated/demo/a.txt", "A")],
       Except.error "Invalid file path: ../../x") := by
  have h := c9_sequential_abort "/root/generated" escapeRecipe "demo" (fun _ => none) 1
    "Invalid file path: ../../x" (by decide)
    (fun j hj => by
      interval_cases j
      exact ⟨"/root/generated/demo/a.txt", rfl⟩)
    rfl
  exact h

/-! ## Renderer lemmas (for claim C4) -/

/-- A word character is never pattern whitespace. -/
theorem word_not_wsp (c : Char) (h : isWordChar c = true) : isWsp c = false := by
  by_contra hw
  rw [Bool.not_eq_false] at hw
  simp only [isWsp, Bool.or_eq_true, beq_iff_eq] at hw
  rcases hw with ((((h1 | h1) | h1) | h1) | h1) | h1 <;> subst h1 <;>
    exact absurd h (by decide)

/-- `dropWhile` never lengthens a list. -/
theorem dropWhile_length_le (p : Char → Bool) (l : List Char) :
    (l.dropWhile p).length ≤ l.length := by
  induction l with
  | nil => simp
  | cons c cs ih =>
    by_cases h : p c
    · simp [List.dropWhile, h]
      omega
    · simp [List.dropWhile, h]

/-- A successful `matchKeyClose` consumes exactly the two closing
braces. -/
theorem matchKeyClose_length {l rest : List Char} (h : matchKeyClose l = some rest) :
    rest.length + 2 = l.length := by
  match l with
  | [] => cases h
  | [c1] => cases h
  | c1 :: c2 :: tl =>
    by_cases hc : c1 = '}' ∧ c2 = '}'
    · rw [matchKeyClose, if_pos hc] at h
      cases h
      simp
    · rw [matchKeyClose, if_neg hc] at h
      cases h

/-- A successful `matchBody` leaves at least two characters behind. -/
theorem matchBody_length {r : List Char} {key : String} {rest : List Char}
    (h : matchBody r = some (key, rest)) : rest.length + 2 ≤ r.length := by
  unfold matchBody at h
  by_cases hk : ((r.dropWhile isWsp).takeWhile isWordChar).isEmpty
  · rw [if_pos hk] at h
    cases h
  · rw [if_neg hk] at h
    cases hm : matchKeyClose (((r.dropWhile isWsp).dropWhile isWordChar).dropWhile isWsp) with
    | none => rw [hm] at h; cases h
    | some rest2 =>
      rw [hm] at h
      cases h
      have h1 := matchKeyClose_length hm
      have h2 := dropWhile_length_le isWsp ((r.dropWhile isWsp).dropWhile isWordChar)
      have h3 := dropWhile_length_le isWordChar (r.dropWhile isWsp)
      have h4 := dropWhile_length_le isWsp r
      omega

/-- A successful pattern match strictly shortens the input. -/
theorem matchToken_length {l : List Char} {key : String} {rest : List Char}
    (h : matchToken l = some (key, rest)) : rest.length < l.length := by
  match l with
  | [] => cases h
  | [c1] => cases h
  | c1 :: c2 :: r =>
    by_cases hc : c1 = '{' ∧ c2 = '{'
    · rw [matchToken, if_pos hc] at h
      have := matchBody_length h
      simp only [List.length_cons]
      omega
    · rw [matchToken, if_neg hc] at h
      cases h

/-- `renderAux` does not depend on the fuel, as long as there is enough
of it. -/
theorem renderAux_fuel (ctx : String → Option String) :
    ∀ (n m : Nat) (l : List Char), l.length ≤ n → l.length ≤ m →
      renderAux ctx n l = renderAux ctx m l := by
  intro n
  induction n with
  | zero =>
    intro m l hn hm
    have : l = [] := List.eq_nil_of_length_eq_zero (Nat.le_zero.mp hn)
    subst this
    cases m <;> rfl
  | succ n ih =>
    intro m l hn hm
    cases l with
    | nil => cases m <;> rfl
    | cons c cs =>
      cases m with
      | zero => simp at hm
      | succ m' =>
        simp only [renderAux]
        cases hmt : matchToken (c :: cs) with
        | none =>
          have hcs : cs.length ≤ n := by simp at hn; omega
          have hcs' : cs.length ≤ m' := by simp at hm; omega
          show c :: renderAux ctx n cs = c :: renderAux ctx m' cs
          rw [ih m' cs hcs hcs']
        | some kr =>
          obtain ⟨key, rest⟩ := kr
          have hlt := matchToken_length hmt
          have hr : rest.length ≤ n := by simp at hlt hn; omega
          have hr' : rest.length ≤ m' := by simp at hlt hm; omega
          show ((ctx key).getD "").toList ++ renderAux ctx n rest
            = ((ctx key).getD "").toList ++ renderAux ctx m' rest
          rw [ih m' rest hr hr']

/-- Splitting a word-prefixed list at the first `}`. -/
theorem word_span_append (ks tl : List Char) (hks : ks.all isWordChar = true) :
    (ks ++ '}' :: tl).takeWhile isWordChar = ks ∧
    (ks ++ '}' :: tl).dropWhile isWordChar = '}' :: tl := by
  have hbr : isWordChar '}' = false := by decide
  induction ks with
  | nil => refine ⟨?_, ?_⟩ <;> simp [List.takeWhile, List.dropWhile, hbr]
  | cons k ks' ih =>
    rw [List.all_cons, Bool.and_eq_true] at hks
    have := ih hks.2
    refine ⟨?_, ?_⟩ <;> simp [List.takeWhile, List.dropWhile, hks.1, this.1, this.2]

/-- Rebuilding a string from its character list is the identity. -/
theorem strMk_toList (s : String) : String.mk s.toList = s := by
  cases s
  rfl

/-- `toList` distributes over string append. -/
theorem strToList_append (a b : String) : (a ++ b).toList = a.toList ++ b.toList :=
  rfl

/-- `String.mk` distributes over list append. -/
theorem strMk_append (a b : List Char) : String.mk (a ++ b) = String.mk a ++ String.mk b :=
  rfl

/-- The pattern matcher accepts the exact token `{{KEY}}` for any
well-formed key and consumes exactly it. -/
theorem matchToken_token (key : String) (rest : List Char)
    (hkey : validTokenKey key = true) :
    matchToken ('{' :: '{' :: (key.toList ++ '}' :: '}' :: rest)) = some (key, rest) := by
  rw [validTokenKey, Bool.and_eq_true, Bool.not_eq_true'] at hkey
  obtain ⟨hne, hall⟩ := hkey
  have hdw : (key.toList ++ '}' :: '}' :: rest).dropWhile isWsp
      = key.toList ++ '}' :: '}' :: rest := by
    cases hk : key.toList with
    | nil => rw [hk] at hne; cases hne
    | cons k0 ktl =>
      have hk0 : isWordChar k0 = true := by
        rw [hk, List.all_cons, Bool.and_eq_true] at hall
        exact hall.1
      rw [List.cons_append]
      simp [List.dropWhile, word_not_wsp k0 hk0]
  have hspan := word_span_append key.toList ('}' :: rest) hall
  have hclose : (('}' : Char) :: '}' :: rest).dropWhile isWsp = '}' :: '}' :: rest := by
    have h1 : isWsp '}' = false := by decide
    simp [List.dropWhile, h1]
  rw [matchToken, if_pos ⟨rfl, rfl⟩]
  simp only [matchBody]
  rw [hdw, hspan.1, hspan.2]
  rw [if_neg (show ¬(key.toList.isEmpty = true) by rw [hne]; simp)]
  rw [hclose, matchKeyClose, if_pos ⟨rfl, rfl⟩, strMk_toList]

/-- If a literal has no adjacent `{{`, neither has its tail. -/
theorem hasDoubleBrace_tail {c : Char} {cs : List Char}
    (h : hasDoubleBrace (c :: cs) = false) : hasDoubleBrace cs = false := by
  cases cs with
  | nil => rfl
  | cons c2 cs' =>
    rw [hasDoubleBrace, Bool.or_eq_false_iff] at h
    exact h.2

/-- No pattern match can begin inside a `{{`-free literal followed by a
token: scanning `lit ++ {{KEY}} ++ rest` replaces exactly the token. -/
theorem renderAux_lit_token (ctx : String → Option String)
    (lit : List Char) (key : String) (rest : List Char)
    (hlit : hasDoubleBrace lit = false) (hkey : validTokenKey key = true) :
    ∀ n, (lit ++ '{' :: '{' :: (key.toList ++ '}' :: '}' :: rest)).length ≤ n →
      renderAux ctx n (lit ++ '{' :: '{' :: (key.toList ++ '}' :: '}' :: rest))
        = lit ++ ((ctx key).getD "").toList ++ renderAux ctx rest.length rest := by
  induction lit with
  | nil =>
    intro n hn
    cases n with
    | zero => simp at hn
    | succ n' =>
      have hr : rest.length ≤ n' := by simp at hn; omega
      simp only [List.nil_append, renderAux]
      rw [matchToken_token key rest hkey]
      show ((ctx key).getD "").toList ++ renderAux ctx n' rest
        = ((ctx key).getD "").toList ++ renderAux ctx rest.length rest
      rw [renderAux_fuel ctx n' rest.length rest hr (le_refl _)]
  | cons c lit' ih =>
    intro n hn
    have hlit' : hasDoubleBrace lit' = false := hasDoubleBrace_tail hlit
    cases n with
    | zero => simp at hn
    | succ n' =>
      have hmt : matchToken (c :: (lit' ++ '{' :: '{' :: (key.toList ++ '}' :: '}' :: rest)))
          = none := by
        cases lit' with
        | nil =>
          by_cases hc : c = '{'
          · subst hc
            rw [List.nil_append, matchToken, if_pos ⟨rfl, rfl⟩]
            simp only [matchBody]
            have hnw : isWsp '{' = false := by decide
            have hnword : isWordChar '{' = false := by decide
            rw [show (('{' : Char) :: (key.toList ++ '}' :: '}' :: rest)).dropWhile isWsp
                = '{' :: (key.toList ++ '}' :: '}' :: rest) by simp [List.dropWhile, hnw]]
            rw [if_pos (by simp [List.takeWhile, hnword])]
          · rw [List.nil_append, matchToken,
              if_neg (show ¬(c = '{' ∧ '{' = '{') from fun hb => hc hb.1)]
        | cons c2 lit'' =>
          by_cases hc : c = '{' ∧ c2 = '{'
          · exfalso
            rw [hasDoubleBrace, Bool.or_eq_false_iff] at hlit
            have := hlit.1
            simp [hc.1, hc.2] at this
          · rw [List.cons_append, matchToken, if_neg hc]
      have hn' : (lit' ++ '{' :: '{' :: (key.toList ++ '}' :: '}' :: rest)).length ≤ n' := by
        simp at hn ⊢
        omega
      have hred : renderAux ctx (n' + 1) (c :: (lit' ++ '{' :: '{' :: (key.toList ++ '}' :: '}' :: rest)))
          = c :: renderAux ctx n' (lit' ++ '{' :: '{' :: (key.toList ++ '}' :: '}' :: rest)) := by
        simp only [renderAux]
        rw [hmt]
      rw [List.cons_append, hred, ih hlit' n' hn']
      simp

/-- C4 counterexample: with context `{A: "{{B}}"}` the rendered output
of `{{A}}` is `{{B}}` — a placeholder token for the unbound key `B`
left verbatim in the output, contradicting the claim that unbound
tokens are never left verbatim. -/
theorem c4_counterexample :
    renderTemplate "{{A}}" tokenValueCtx = "{{B}}" ∧
    containsToken (renderTemplate "{{A}}" tokenValueCtx) = true ∧
    tokenValueCtx "B" = none :=
  ⟨rfl, rfl, rfl⟩

/-- C4 (amended): rendering always succeeds and replaces every
placeholder occurrence of the template itself: wherever the template
splits as a `{{`-free literal, a `{{KEY}}` token, and a remainder, the
output is the literal, the binding of `KEY` (the empty string when the
key is unbound), and the rendering of the remainder.  Tokens can still
appear in the output when a substituted value or reassembled literal
text contains one. -/
theorem c4_render_token_replacement (ctx : String → Option String) (lit key rest : String)
    (hlit : hasDoubleBrace lit.toList = false) (hkey : validTokenKey key = true) :
    renderTemplate (lit ++ "\x7b\x7b" ++ key ++ "\x7d\x7d" ++ rest) ctx
      = lit ++ ((ctx key).getD "") ++ renderTemplate rest ctx := by
  have hT : (lit ++ "\x7b\x7b" ++ key ++ "\x7d\x7d" ++ rest).toList
      = lit.toList ++ '{' :: '{' :: (key.toList ++ '}' :: '}' :: rest.toList) := by
    simp [strToList_append, List.append_assoc]
  rw [renderTemplate, hT,
    renderAux_lit_token ctx lit.toList key rest.toList hlit hkey _ (le_refl _)]
  rw [strMk_append, strMk_append, strMk_toList]
  rfl

/-- C4 witness: the amended theorem at a concrete literal, key and
remainder. -/
theorem c4_witness :
    renderTemplate "x {{TAG}} y" (fun k => if k = "TAG" then some "v" else none)
      = "x v y" :=
  c4_render_token_replacement (fun k => if k = "TAG" then some "v" else none)
    "x " "TAG" " y" (by decide) (by decide)

end LabOrchestrator
